import Mathlib

/-!
Shallow embedding of the numeric processing core of `enhydris_autoprocess`
(`src/enhydris_autoprocess/models.py`), together with theorems checking the
natural-language specification against it.

Conventions used throughout:
* A pandas `DataFrame` row of the time series (`timestamp`, `value`, `flags`)
  is a `TimeRecord`; timestamps are integers (minutes), a float value is a
  rational, `NaN`/missing is `none`, and the flags column is a plain string.
* Django model classes become structures holding their configuration fields.
* Behaviour of third-party library calls (pandas, numpy, haggregate) that the
  code delegates to is modelled in clearly marked definitions, each with a doc
  comment stating what is being modelled.
-/

namespace EnhydrisAutoprocess

/-- One row of the time-series `DataFrame`: timestamp (minutes), value
(`none` = `NaN`/missing), and the `flags` string column. -/
structure TimeRecord where
  ts : ℤ
  value : Option ℚ
  flags : String
deriving DecidableEq, Repr

/-- Python's substring test `flag in flags`, and the notion of a record
"carrying" a flag inside the space-joined flags string. -/
def contains_flag (flags flag : String) : Bool :=
  decide (flag.data <:+: flags.data)

/-- The flag-appending behaviour of `RangeCheck._add_flag_to_out_of_bounds_values`
(models.py lines 142-146) for a single masked row: rows with a nonempty flags
string first get `" "` appended, then every masked row gets the flag appended. -/
def add_flag (flags flag : String) : String :=
  (if flags ≠ "" then flags ++ " " else flags) ++ flag

/-- Models the pandas comparison `series >= bound` for one float element, where
the bound may be `None`: pandas (`comparison_op` in `pandas/core/ops`) returns
elementwise `False` when the right operand is a missing scalar such as `None`
("numpy does not like comparisons vs None"). -/
def pd_ge (v : ℚ) : Option ℚ → Bool
  | none => false
  | some b => decide (b ≤ v)

/-- Models the pandas comparison `series <= bound` for one float element; as in
`pd_ge`, a `None` bound compares as `False`. -/
def pd_le (v : ℚ) : Option ℚ → Bool
  | none => false
  | some b => decide (v ≤ b)

/-- Models `Series.between(low, high)` (inclusive on both ends) for one element:
`(self >= low) & (self <= high)`. -/
def pd_between (v : ℚ) (low high : Option ℚ) : Bool :=
  pd_ge v low && pd_le v high

/-- The per-row out-of-bounds mask of `RangeCheck._find_out_of_bounds_values`
(models.py lines 133-137): `~isnull(value) & ~value.between(low, high)`. -/
def out_of_bounds (low high : Option ℚ) (r : TimeRecord) : Bool :=
  match r.value with
  | none => false
  | some v => !(pd_between v low high)

/-- `RangeCheck._do_hard_limits` (models.py lines 124-127): compute the mask for
the hard bounds, replace masked values with `NaN`, then append the `RANGE` flag
to the masked rows. All three steps are row-wise over the same mask. -/
def do_hard_limits (lower_bound upper_bound : ℚ) (data : List TimeRecord) :
    List TimeRecord :=
  data.map fun r =>
    if out_of_bounds (some lower_bound) (some upper_bound) r then
      { r with value := none, flags := add_flag r.flags "RANGE" }
    else r

/-- `RangeCheck._do_soft_limits` (models.py lines 129-131): compute the mask for
the (nullable) soft bounds and append the `SUSPECT` flag to the masked rows;
values are not modified. -/
def do_soft_limits (soft_lower_bound soft_upper_bound : Option ℚ)
    (data : List TimeRecord) : List TimeRecord :=
  data.map fun r =>
    if out_of_bounds soft_lower_bound soft_upper_bound r then
      { r with flags := add_flag r.flags "SUSPECT" }
    else r

/-- The configuration fields of the `RangeCheck` model (models.py lines
110-115); the soft bounds are nullable. -/
structure RangeCheck where
  upper_bound : ℚ
  lower_bound : ℚ
  soft_upper_bound : Option ℚ
  soft_lower_bound : Option ℚ
deriving DecidableEq, Repr

/-- `RangeCheck.check_timeseries` (models.py lines 120-122): the hard pass
followed by the soft pass. -/
def check_timeseries (rc : RangeCheck) (data : List TimeRecord) :
    List TimeRecord :=
  do_soft_limits rc.soft_lower_bound rc.soft_upper_bound
    (do_hard_limits rc.lower_bound rc.upper_bound data)

/-- `Checks.process_timeseries` (models.py lines 98-107): if a related
`RangeCheck` row exists it is run on the series. When none exists,
`check_type.objects.get(checks=self)` raises `DoesNotExist` before the local
name `check` is ever bound (the loop variable is `check_type`), and the
handler `except check.DoesNotExist:` then evaluates the unbound local
`check`, so the step raises `UnboundLocalError` instead of reaching the
`pass` branch. -/
def checks_process_timeseries (range_check : Option RangeCheck)
    (data : List TimeRecord) : Except String (List TimeRecord) :=
  match range_check with
  | none =>
    .error "UnboundLocalError: local variable referenced before assignment"
  | some rc => .ok (check_timeseries rc data)

/-- Models `numpy.interp(v, x, y, left=nan, right=nan)` on a curve given as a
list of `(x, y)` points with ascending `x` (the order produced by
`CurvePeriod._get_curve`, models.py lines 199-205): piecewise-linear
interpolation, with inputs strictly below the first `x` or strictly above the
last `x` mapped to `NaN` (`none`); an empty list of sample points is an error
in numpy and is mapped to `none` here. -/
def np_interp (v : ℚ) : List (ℚ × ℚ) → Option ℚ
  | [] => none
  | [(x0, y0)] => if v < x0 ∨ x0 < v then none else some y0
  | (x0, y0) :: (x1, y1) :: rest =>
    if v < x0 then none
    else if v ≤ x1 then some (y0 + (v - x0) * ((y1 - y0) / (x1 - x0)))
    else np_interp v ((x1, y1) :: rest)

/-- A `CurvePeriod` (models.py lines 187-205) together with its curve points:
`start_date`/`end_date` are modelled as timestamps, and `points` is the
`(x, y)` list returned by `_get_curve`, sorted by ascending `x`. -/
structure CurvePeriod where
  start_date : ℤ
  end_date : ℤ
  points : List (ℚ × ℚ)
deriving DecidableEq, Repr

/-- The body of the per-period loop of `CurveInterpolation.process_timeseries`
(models.py lines 177-183): on the slice of rows whose timestamp lies in
`[start_date, end_date]` (the `.loc[start:end]` slice, inclusive on both
ends), replace the value by its interpolation through the period's curve and
clear the flags to the empty string; rows outside the slice are untouched.
A `NaN` input value stays `NaN` under `numpy.interp`. -/
def curve_period_apply (p : CurvePeriod) (data : List TimeRecord) :
    List TimeRecord :=
  data.map fun r =>
    if p.start_date ≤ r.ts ∧ r.ts ≤ p.end_date then
      { r with value := r.value.bind (fun v => np_interp v p.points),
               flags := "" }
    else r

/-- `CurveInterpolation.process_timeseries` (models.py lines 175-184): apply
each period in ascending `start_date` order (the `order_by("start_date")`
query; the list argument is taken already in that order). -/
def curve_interpolation_process_timeseries (periods : List CurvePeriod)
    (data : List TimeRecord) : List TimeRecord :=
  periods.foldl (fun d p => curve_period_apply p d) data

/-- The three groups of `re.match(r"(-?)(\d*)(.*)$", s)` used by
`Aggregation._check_nonempty_resulting_timestamp_offset` (models.py line 302):
an optional leading minus sign, then a maximal (possibly empty) run of digits,
then the rest of the string. Returned as (sign present, digit run, rest);
strings are modelled without trailing newlines, so `$` is the end of the
string. -/
def offset_regex_match (s : String) : Bool × List Char × List Char :=
  match s.data with
  | '-' :: t => (true, t.takeWhile Char.isDigit, t.dropWhile Char.isDigit)
  | l => (false, l.takeWhile Char.isDigit, l.dropWhile Char.isDigit)

/-- `Aggregation._check_nonempty_resulting_timestamp_offset` (models.py lines
301-309): `IntegrityError` is raised exactly when the unit group is not `"min"`
or the sign is `"-"` with an empty digit group. -/
def check_nonempty_resulting_timestamp_offset_raises (s : String) : Bool :=
  let m := offset_regex_match s
  !(m.2.2 == "min".data) || (m.1 && m.2.1 == [])

/-- `Aggregation._check_resulting_timestamp_offset` (models.py lines 295-299):
an empty offset is accepted without any check. -/
def check_resulting_timestamp_offset_raises (s : String) : Bool :=
  if s = "" then false else check_nonempty_resulting_timestamp_offset_raises s

/-- `Aggregation.save` (models.py lines 291-293) restricted to its validation
effect: it runs the offset check before saving and surfaces `IntegrityError`;
a processing pass (`process_timeseries`) performs no such check. -/
def aggregation_save (resulting_timestamp_offset : String) :
    Except String Unit :=
  if check_resulting_timestamp_offset_raises resulting_timestamp_offset then
    .error "IntegrityError: not a valid resulting time step offset"
  else .ok ()

/-- `Aggregation._divide_target_step_by_source_step` (models.py lines 346-349):
`int(pd.Timedelta(target_step) / to_offset(source_step))`. Both steps are
modelled by their (positive) durations in minutes; the exact ratio of two
positive durations truncated by `int()` is floor division. -/
def divide_target_step_by_source_step (source_step target_step : ℕ) : ℕ :=
  target_step / source_step

/-- The `min_count` computation of `Aggregation._aggregate_time_series`
(models.py lines 324-328): `max(divide(source, target) - max_missing, 1)`,
with the subtraction performed over the integers as in Python. -/
def aggregation_min_count (source_step target_step max_missing : ℕ) : ℤ :=
  max ((divide_target_step_by_source_step source_step target_step : ℤ)
    - (max_missing : ℤ)) 1

/-- The aggregation methods offered by `Aggregation.METHOD_CHOICES`
(models.py lines 230-235). -/
inductive AggMethod where
  | sum
  | mean
  | max
  | min
deriving DecidableEq, Repr

/-- Modelled from the spec: the reduction of the non-missing values of a
window (`sum`/`mean`/`max`/`min` over the present values, §4.4.4); a reduction
over zero values never happens here because the caller guards against an empty
list, so the `[]` case is arbitrary. -/
def reduce_values (method : AggMethod) (vals : List ℚ) : ℚ :=
  match vals with
  | [] => 0
  | v :: rest =>
    match method with
    | .sum => (v :: rest).sum
    | .mean => (v :: rest).sum / ((v :: rest).length : ℚ)
    | .max => rest.foldl Max.max v
    | .min => rest.foldl Min.min v

/-- The number of non-missing values among a window's source values. -/
def count_present (vals : List (Option ℚ)) : ℕ :=
  (vals.filterMap id).length

/-- Modelled from the spec: the per-window behaviour of the external
`haggregate.aggregate` call made by `Aggregation._aggregate_time_series`
(models.py lines 329-335), following §4.4.3-4 of the spec. `vals` are the
source values falling in one window, `min_count` is the minimum number of
non-missing values needed to produce a value, and `capacity` is the window's
full expected number of source records (`target_step / source_step`). A
window with no usable values, or with fewer than `min_count` of them, yields
a missing value with no flag; otherwise the reduction is computed and the
`MISS` flag is set exactly when the window is incomplete. -/
def aggregate_window (method : AggMethod) (min_count capacity : ℕ)
    (vals : List (Option ℚ)) : Option ℚ × String :=
  let present := vals.filterMap id
  if present.length = 0 ∨ present.length < min_count then (none, "")
  else (some (reduce_values method present),
        if present.length < capacity then "MISS" else "")

/-- Modelled from the spec: the right-closed window labelling of §4.4.1 — the
label of the window containing timestamp `ts` is the closing boundary, the
smallest multiple of `target_step` that is at least `ts`. -/
def window_label (target_step ts : ℤ) : ℤ :=
  target_step * (-(Int.ediv (-ts) target_step))

/-- Modelled from the spec: the external `haggregate.aggregate` call of
`Aggregation._aggregate_time_series` (models.py lines 329-335) at series
level, following §4.4: group the regular source series into right-closed
windows of width `target_step` labelled by their closing boundary, reduce each
window with `aggregate_window`, and subtract the resulting-timestamp offset
(already parsed to minutes; `0` when absent) from every output timestamp. -/
def aggregate_series (source_step target_step : ℤ) (method : AggMethod)
    (min_count : ℕ) (offset : ℤ) (data : List TimeRecord) : List TimeRecord :=
  let capacity := (Int.ediv target_step source_step).toNat
  let labels := (data.map (fun r => window_label target_step r.ts)).dedup
  labels.map fun L =>
    let vals := (data.filter (fun r => window_label target_step r.ts == L)).map
      (fun r => r.value)
    let res := aggregate_window method min_count capacity vals
    ⟨L - offset, res.1, res.2⟩

/-- Modelled from the spec: the external `haggregate.regularize` call of
`Aggregation._regularize_time_series` (models.py lines 318-319), following
§4.3: one record per `step` from the first to the last input timestamp,
existing records copied through unchanged, gaps filled with a missing value
flagged `DATEINSERT`. -/
def regularize_series (step : ℤ) (data : List TimeRecord) : List TimeRecord :=
  match data.head?, data.getLast? with
  | some first, some last =>
    let n := (Int.ediv (last.ts - first.ts) step).toNat + 1
    (List.range n).map fun i =>
      let t := first.ts + step * (i : ℤ)
      match data.find? (fun r => r.ts == t) with
      | some r => r
      | none => ⟨t, none, "DATEINSERT"⟩
  | _, _ => []

/-- Models `pd.infer_freq` as used by `Aggregation._get_source_step`
(models.py lines 337-338): pandas needs at least 3 timestamps and returns the
common step of an evenly spaced increasing index, and nothing otherwise
(an uninferrable frequency makes the subsequent step arithmetic fail). -/
def infer_freq (data : List TimeRecord) : Option ℤ :=
  match data with
  | a :: b :: c :: rest =>
    let d := b.ts - a.ts
    if decide (0 < d) &&
        ((a :: b :: c :: rest).zip (b :: c :: rest)).all
          (fun p => p.2.ts - p.1.ts == d) then
      some d
    else none
  | _ => none

/-- Models `pd.Timedelta` applied to the resulting-timestamp-offset string,
in minutes. `pd.Timedelta("")` is `NaT` (modelled `none`, since
`parse_timedelta_string` returns `NaT` for a zero-length string); a string of
the form `-?\d+min` parses to that signed number of minutes. Any other string
raises `ValueError` in pandas; no such offset is exercised by the theorems
below, and those cases are also mapped to `none` to keep the function total. -/
def pd_timedelta_minutes (s : String) : Option ℤ :=
  if s = "" then none
  else
    let m := offset_regex_match s
    if m.2.1 ≠ [] ∧ m.2.2 = "min".data then
      some ((if m.1 then -1 else 1) *
        (m.2.1.foldl (fun acc c => acc * 10 + (c.toNat - '0'.toNat)) 0 : ℕ))
    else none

/-- `Aggregation._last_target_record_needs_trimming` (models.py lines
360-370): an empty output never needs trimming; otherwise the last record
needs trimming when its flags contain `MISS` and the source end date is
strictly before the record's timestamp plus the configured offset. A `NaT`
offset (empty offset string) makes the sum `NaT`, and a pandas `<` comparison
against `NaT` is `False`. -/
def last_target_record_needs_trimming (resulting_timestamp_offset : String)
    (source_end_date : ℤ) (data : List TimeRecord) : Bool :=
  match data.getLast? with
  | none => false
  | some r =>
    contains_flag r.flags "MISS" &&
      match pd_timedelta_minutes resulting_timestamp_offset with
      | none => false
      | some d => decide (source_end_date < r.ts + d)

/-- `Aggregation._trim_last_record_if_not_complete` (models.py lines
351-358): drop the last record (`data[:-1]`) exactly when it needs trimming. -/
def trim_last_record_if_not_complete (resulting_timestamp_offset : String)
    (source_end_date : ℤ) (data : List TimeRecord) : List TimeRecord :=
  if last_target_record_needs_trimming resulting_timestamp_offset
      source_end_date data then
    data.dropLast
  else data

/-- The configuration fields of the `Aggregation` model (models.py lines
229-268) needed by a processing pass; the target time step string is modelled
by its duration in minutes. -/
structure Aggregation where
  target_step : ℤ
  method : AggMethod
  max_missing : ℕ
  resulting_timestamp_offset : String
deriving DecidableEq, Repr

/-- `Aggregation.process_timeseries` (models.py lines 311-316): read the
source end date from `data.index[-1]` — an `IndexError` on an empty series —
then regularize (which needs an inferrable source frequency), aggregate with
the computed `min_count`, and trim the last record if not complete. -/
def aggregation_process_timeseries (cfg : Aggregation)
    (source : List TimeRecord) : Except String (List TimeRecord) :=
  match source.getLast? with
  | none => .error "IndexError: index -1 is out of bounds for axis 0 with size 0"
  | some last =>
    match infer_freq source with
    | none => .error "ValueError: cannot infer frequency from the source index"
    | some source_step =>
      let reg := regularize_series source_step source
      let min_count := (aggregation_min_count source_step.toNat
        cfg.target_step.toNat cfg.max_missing).toNat
      let offset := (pd_timedelta_minutes cfg.resulting_timestamp_offset).getD 0
      let agg := aggregate_series source_step cfg.target_step cfg.method
        min_count offset reg
      .ok (trim_last_record_if_not_complete cfg.resulting_timestamp_offset
        last.ts agg)

/-- Written from the spec's words, for comparison with the code's
`aggregation_min_count`: `min_count = max(1, ceil(target_step / source_step)
- max_missing)`, with a ceiling division. -/
def spec_ceil_min_count (source_step target_step max_missing : ℕ) : ℤ :=
  max ((((target_step + source_step - 1) / source_step : ℕ) : ℤ)
    - (max_missing : ℤ)) 1

/-- Written from the claim's words, for comparison with the code's offset
check: a non-empty offset is well-formed when it is an optionally negative
number (at least one digit) followed by the unit `min`. -/
def spec_offset_pattern (s : String) : Prop :=
  ∃ (neg : Bool) (ds : List Char), ds ≠ [] ∧ (∀ c ∈ ds, c.isDigit) ∧
    s.data = (if neg then ['-'] else []) ++ ds ++ "min".data

/-- The offset shapes the code's regex check actually accepts: an optional
minus sign, a digit run that may be empty only when the sign is absent, then
the unit `min`. -/
def code_offset_pattern (s : String) : Prop :=
  ∃ (neg : Bool) (ds : List Char), (∀ c ∈ ds, c.isDigit) ∧
    (neg = true → ds ≠ []) ∧
    s.data = (if neg then ['-'] else []) ++ ds ++ "min".data

/-! ## Helper lemmas -/

/-- Appending a flag with `add_flag` makes the flags string carry that flag. -/
theorem contains_flag_add_flag (s f : String) :
    contains_flag (add_flag s f) f = true := by
  simp only [contains_flag, add_flag, decide_eq_true_eq, String.data_append]
  exact (List.suffix_append _ _).isInfix

/-- The record produced by the hard pass at one row. -/
def hard_limit_record (lower upper : ℚ) (r : TimeRecord) : TimeRecord :=
  if out_of_bounds (some lower) (some upper) r then
    { r with value := none, flags := add_flag r.flags "RANGE" }
  else r

/-- `do_hard_limits` acts row-wise through `hard_limit_record`. -/
theorem do_hard_limits_eq_map (lower upper : ℚ) (data : List TimeRecord) :
    do_hard_limits lower upper data = data.map (hard_limit_record lower upper) :=
  rfl

/-- With both bounds present, the out-of-bounds mask of a row holds exactly on
a non-missing value strictly outside the closed interval. -/
theorem out_of_bounds_some_iff (lower upper : ℚ) (r : TimeRecord) :
    out_of_bounds (some lower) (some upper) r = true ↔
      ∃ v, r.value = some v ∧ (v < lower ∨ upper < v) := by
  cases hv : r.value with
  | none => simp [out_of_bounds, hv]
  | some v =>
    by_cases h1 : lower ≤ v <;> by_cases h2 : v ≤ upper <;>
      simp [out_of_bounds, hv, pd_between, pd_ge, pd_le, h1, h2] <;>
      first
        | (intro h; rcases h with h | h <;> linarith)
        | (left; linarith)
        | (right; linarith)

/-! ## Theorems for the claims -/

/-- **C10** (evaluation at the failing input): with no configured range
check, the `Checks` processing step is not the identity on any input series.
`RangeCheck.objects.get` raises `DoesNotExist`, and the handler
`except check.DoesNotExist:` (models.py line 105) evaluates the local name
`check`, which the failed `get` call never bound — the loop variable is
`check_type` — so the step raises `UnboundLocalError` instead of returning
the input. -/
theorem checks_without_range_check_raises (data : List TimeRecord) :
    checks_process_timeseries none data
      = .error
        "UnboundLocalError: local variable referenced before assignment" :=
  rfl

/-- **C2**: after the hard pass of the range check, every record whose input
value was non-missing and outside `[lower_bound, upper_bound]` has a missing
value and carries the `RANGE` flag; every non-missing output value lies within
the bounds (inclusive on both ends, so in-bounds records are left unchanged);
records with missing input values are neither altered nor flagged. -/
theorem range_hard_pass_correct (lower upper : ℚ) (data : List TimeRecord)
    (i : ℕ) (r : TimeRecord) (h : data[i]? = some r) :
    ∃ r', (do_hard_limits lower upper data)[i]? = some r' ∧
      r'.ts = r.ts ∧
      (∀ v, r.value = some v → v < lower ∨ upper < v →
        r'.value = none ∧ contains_flag r'.flags "RANGE" = true) ∧
      (∀ v, r'.value = some v → lower ≤ v ∧ v ≤ upper) ∧
      (∀ v, r.value = some v → lower ≤ v → v ≤ upper → r' = r) ∧
      (r.value = none → r' = r) := by
  refine ⟨hard_limit_record lower upper r, ?_, ?_, ?_, ?_, ?_, ?_⟩
  · rw [do_hard_limits_eq_map, List.getElem?_map, h, Option.map_some']
  · unfold hard_limit_record
    split <;> rfl
  · intro v hv hout
    have hmask : out_of_bounds (some lower) (some upper) r = true :=
      (out_of_bounds_some_iff lower upper r).mpr ⟨v, hv, hout⟩
    unfold hard_limit_record
    rw [if_pos hmask]
    exact ⟨rfl, contains_flag_add_flag _ _⟩
  · intro v hv
    unfold hard_limit_record at hv
    by_cases hmask : out_of_bounds (some lower) (some upper) r = true
    · rw [if_pos hmask] at hv
      simp at hv
    · rw [if_neg hmask] at hv
      rcases (not_iff_not.mpr (out_of_bounds_some_iff lower upper r)).mp hmask
        with hnone
      push_neg at hnone
      exact hnone v hv
  · intro v hv h1 h2
    have hmask : out_of_bounds (some lower) (some upper) r = false := by
      rw [← Bool.not_eq_true]
      intro hc
      rcases (out_of_bounds_some_iff lower upper r).mp hc with ⟨w, hw, hout⟩
      rw [hv] at hw
      injection hw with hw'
      subst hw'
      rcases hout with h' | h' <;> linarith
    unfold hard_limit_record
    rw [hmask]
    simp
  · intro hv
    have hmask : out_of_bounds (some lower) (some upper) r = false := by
      simp [out_of_bounds, hv]
    unfold hard_limit_record
    rw [hmask]
    simp

/-- Witness for `range_hard_pass_correct` at the spec's §8 example: bounds
`[0, 100]` and an input value `150`. -/
theorem range_hard_pass_correct_witness :
    ∃ r', (do_hard_limits 0 100 [⟨0, some 150, ""⟩])[0]? = some r' ∧
      r'.ts = (0 : ℤ) ∧
      (∀ v, (some (150 : ℚ) : Option ℚ) = some v → v < 0 ∨ 100 < v →
        r'.value = none ∧ contains_flag r'.flags "RANGE" = true) ∧
      (∀ v, r'.value = some v → 0 ≤ v ∧ v ≤ 100) ∧
      (∀ v, (some (150 : ℚ) : Option ℚ) = some v → 0 ≤ v → v ≤ 100 →
        r' = ⟨0, some 150, ""⟩) ∧
      ((some (150 : ℚ) : Option ℚ) = none → r' = ⟨0, some 150, ""⟩) :=
  range_hard_pass_correct 0 100 [⟨0, some 150, ""⟩] 0 ⟨0, some 150, ""⟩ rfl

/-- The record produced by the soft pass at one row. -/
def soft_limit_record (soft_lower soft_upper : Option ℚ) (r : TimeRecord) :
    TimeRecord :=
  if out_of_bounds soft_lower soft_upper r then
    { r with flags := add_flag r.flags "SUSPECT" }
  else r

/-- `do_soft_limits` acts row-wise through `soft_limit_record`. -/
theorem do_soft_limits_eq_map (soft_lower soft_upper : Option ℚ)
    (data : List TimeRecord) :
    do_soft_limits soft_lower soft_upper data
      = data.map (soft_limit_record soft_lower soft_upper) := rfl

/-- **C5**: with both soft bounds configured, the soft pass never changes a
value: it only appends the `SUSPECT` flag to records whose value is
non-missing and outside `[soft_lower_bound, soft_upper_bound]`, and records
whose value is missing or lies within the soft bounds are left unchanged (in
particular they never gain `SUSPECT`). -/
theorem range_soft_pass_only_flags (soft_lower soft_upper : ℚ)
    (data : List TimeRecord) (i : ℕ) (r : TimeRecord)
    (h : data[i]? = some r) :
    ∃ r', (do_soft_limits (some soft_lower) (some soft_upper) data)[i]?
        = some r' ∧
      r'.ts = r.ts ∧ r'.value = r.value ∧
      (∀ v, r.value = some v → v < soft_lower ∨ soft_upper < v →
        r'.flags = add_flag r.flags "SUSPECT" ∧
        contains_flag r'.flags "SUSPECT" = true) ∧
      (∀ v, r.value = some v → soft_lower ≤ v → v ≤ soft_upper → r' = r) ∧
      (r.value = none → r' = r) := by
  refine ⟨soft_limit_record (some soft_lower) (some soft_upper) r,
    ?_, ?_, ?_, ?_, ?_, ?_⟩
  · rw [do_soft_limits_eq_map, List.getElem?_map, h, Option.map_some']
  · unfold soft_limit_record
    split <;> rfl
  · unfold soft_limit_record
    split <;> rfl
  · intro v hv hout
    have hmask : out_of_bounds (some soft_lower) (some soft_upper) r = true :=
      (out_of_bounds_some_iff soft_lower soft_upper r).mpr ⟨v, hv, hout⟩
    unfold soft_limit_record
    rw [if_pos hmask]
    exact ⟨rfl, contains_flag_add_flag _ _⟩
  · intro v hv h1 h2
    have hmask : out_of_bounds (some soft_lower) (some soft_upper) r
        = false := by
      rw [← Bool.not_eq_true]
      intro hc
      rcases (out_of_bounds_some_iff soft_lower soft_upper r).mp hc
        with ⟨w, hw, hout⟩
      rw [hv] at hw
      injection hw with hw'
      subst hw'
      rcases hout with h' | h' <;> linarith
    unfold soft_limit_record
    rw [hmask]
    simp
  · intro hv
    have hmask : out_of_bounds (some soft_lower) (some soft_upper) r
        = false := by
      simp [out_of_bounds, hv]
    unfold soft_limit_record
    rw [hmask]
    simp

/-- Witness for `range_soft_pass_only_flags` at the spec's §8 example: soft
bounds `[10, 90]` and an input value `95`, which keeps its value and gains
`SUSPECT`. -/
theorem range_soft_pass_only_flags_witness :
    ∃ r', (do_soft_limits (some 10) (some 90) [⟨0, some 95, ""⟩])[0]?
        = some r' ∧
      r'.ts = (0 : ℤ) ∧ r'.value = some 95 ∧
      (∀ v, (some (95 : ℚ) : Option ℚ) = some v → v < 10 ∨ 90 < v →
        r'.flags = add_flag "" "SUSPECT" ∧
        contains_flag r'.flags "SUSPECT" = true) ∧
      (∀ v, (some (95 : ℚ) : Option ℚ) = some v → 10 ≤ v → v ≤ 90 →
        r' = ⟨0, some 95, ""⟩) ∧
      ((some (95 : ℚ) : Option ℚ) = none → r' = ⟨0, some 95, ""⟩) :=
  range_soft_pass_only_flags 10 90 [⟨0, some 95, ""⟩] 0 ⟨0, some 95, ""⟩ rfl

/-- **C6** (evaluation at the failing input): with both soft bounds unset, the
range check is *not* the hard pass alone. `Series.between(None, None)` is
elementwise `False` in pandas, so the soft mask holds at every non-missing
row: a record whose value `50` lies inside the hard bounds `[0, 100]` — which
the hard pass alone leaves untouched — comes out of the full check carrying
`SUSPECT`. -/
theorem range_check_unset_soft_bounds_not_noop :
    check_timeseries ⟨100, 0, none, none⟩ [⟨0, some 50, ""⟩]
        = [⟨0, some 50, "SUSPECT"⟩] ∧
      do_hard_limits 0 100 [⟨0, some 50, ""⟩] = [⟨0, some 50, ""⟩] :=
  ⟨rfl, rfl⟩

/-- **C9**: the trailing-record trim removes at most one record per run, and
every record other than the last one is left unchanged (same timestamp, value
and flags), whatever the flags of the other records are. -/
theorem trim_removes_at_most_last (offset : String) (source_end_date : ℤ)
    (data : List TimeRecord) (i : ℕ) (h : i + 1 < data.length) :
    (trim_last_record_if_not_complete offset source_end_date data)[i]?
        = data[i]? ∧
      data.length
        - (trim_last_record_if_not_complete offset source_end_date data).length
        ≤ 1 := by
  unfold trim_last_record_if_not_complete
  split
  · refine ⟨?_, ?_⟩
    · rw [List.dropLast_eq_take, List.getElem?_take]
      rw [if_pos (by omega)]
    · rw [List.length_dropLast]
      omega
  · exact ⟨rfl, by omega⟩

/-- Witness for `trim_removes_at_most_last`: in a two-record output whose
records both carry `MISS`, the first record survives the trim unchanged. -/
theorem trim_removes_at_most_last_witness :
    (trim_last_record_if_not_complete "1min" 100
        [⟨60, some 1, "MISS"⟩, ⟨120, some 2, "MISS"⟩])[0]?
      = [⟨(60 : ℤ), some 1, "MISS"⟩, ⟨120, some 2, "MISS"⟩][0]? ∧
    ([⟨(60 : ℤ), some 1, "MISS"⟩, ⟨120, some 2, "MISS"⟩] :
        List TimeRecord).length
      - (trim_last_record_if_not_complete "1min" 100
          [⟨60, some 1, "MISS"⟩, ⟨120, some 2, "MISS"⟩]).length ≤ 1 :=
  trim_removes_at_most_last "1min" 100
    [⟨60, some 1, "MISS"⟩, ⟨120, some 2, "MISS"⟩] 0 (by decide)

/-- **C3** (evaluation at the failing input): hourly output of 10-minute data
ending at minute 760 (12:40), empty resulting-timestamp offset. The last
output record, at minute 780 (13:00), carries `MISS` and the source end 760
is strictly before its un-offset window-closing timestamp `780 + 0`, so the
claim says it is dropped — but `pd.Timedelta("")` is `NaT`, the comparison
against `NaT` is `False`, and the code keeps the record. -/
theorem aggregation_trim_keeps_incomplete_last_record :
    contains_flag "MISS" "MISS" = true ∧
    ((760 : ℤ) < 780 + 0) ∧
    trim_last_record_if_not_complete "" 760
        [⟨720, some 3, ""⟩, ⟨780, some 5, "MISS"⟩]
      = [⟨720, some 3, ""⟩, ⟨780, some 5, "MISS"⟩] :=
  ⟨by decide, by norm_num, rfl⟩

/-- **C7** (evaluation at the failing input): on an empty source series the
aggregation pass does not produce an empty result — reading
`self.htimeseries.data.index[-1]` raises `IndexError` before anything else
runs, whatever the configuration. -/
theorem aggregation_empty_source_raises (cfg : Aggregation) :
    aggregation_process_timeseries cfg []
      = .error "IndexError: index -1 is out of bounds for axis 0 with size 0" :=
  rfl

/-- A value strictly below every sample point interpolates to missing
(`left=nan`); on an empty list of points the result is missing as well. -/
theorem np_interp_below (v : ℚ) (pts : List (ℚ × ℚ))
    (hbelow : ∀ q ∈ pts, v < q.1) : np_interp v pts = none := by
  match pts with
  | [] => rfl
  | [(x0, y0)] =>
    have h0 := hbelow (x0, y0) (by simp)
    simp only [np_interp]
    rw [if_pos (Or.inl h0)]
  | (x0, y0) :: (x1, y1) :: rest =>
    have h0 := hbelow (x0, y0) (by simp)
    simp only [np_interp]
    rw [if_pos h0]

/-- A value strictly above every sample point interpolates to missing
(`right=nan`). -/
theorem np_interp_above (v : ℚ) : ∀ (pts : List (ℚ × ℚ)), pts ≠ [] →
    (∀ q ∈ pts, q.1 < v) → np_interp v pts = none := by
  intro pts
  induction pts with
  | nil => intro h; exact absurd rfl h
  | cons hd tl ih =>
    intro _ habove
    rcases hd with ⟨x0, y0⟩
    cases tl with
    | nil =>
      have h0 := habove (x0, y0) (by simp)
      simp only [np_interp]
      rw [if_pos (Or.inr h0)]
    | cons hd1 tl1 =>
      rcases hd1 with ⟨x1, y1⟩
      have h0 := habove (x0, y0) (by simp)
      have h1 := habove (x1, y1) (by simp)
      simp only [np_interp]
      rw [if_neg (not_lt.mpr (le_of_lt h0)), if_neg (not_le.mpr h1)]
      exact ih (by simp) (fun q hq => habove q (List.mem_cons_of_mem _ hq))

/-- On a curve whose sample points have strictly increasing `x`, an input
exactly equal to a knot's `x` interpolates exactly to that knot's `y`. -/
theorem np_interp_knot : ∀ (pts : List (ℚ × ℚ)),
    pts.Pairwise (fun a b => a.1 < b.1) →
    ∀ q ∈ pts, np_interp q.1 pts = some q.2 := by
  intro pts
  induction pts with
  | nil => intro _ q hq; simp at hq
  | cons hd tl ih =>
    intro hsort q hq
    rcases hd with ⟨x0, y0⟩
    cases tl with
    | nil =>
      rcases List.mem_singleton.mp hq with rfl
      simp only [np_interp]
      rw [if_neg (by simp)]
    | cons hd1 tl1 =>
      rcases hd1 with ⟨x1, y1⟩
      have hx01 : x0 < x1 :=
        (List.pairwise_cons.mp hsort).1 (x1, y1) (List.mem_cons_self _ _)
      have htl := (List.pairwise_cons.mp hsort).2
      rcases hq with _ | ⟨_, hq'⟩
      · simp only [np_interp]
        rw [if_neg (lt_irrefl x0), if_pos (le_of_lt hx01)]
        congr 1
        ring
      · have hx0q : x0 < q.1 := (List.pairwise_cons.mp hsort).1 q hq'
        rcases hq' with _ | ⟨_, hq''⟩
        · simp only [np_interp]
          rw [if_neg (not_lt.mpr (le_of_lt hx01)), if_pos le_rfl]
          have hne : x1 - x0 ≠ 0 := sub_ne_zero.mpr hx01.ne'
          congr 1
          field_simp
        · have hx1q : x1 < q.1 :=
            (List.pairwise_cons.mp htl).1 q hq''
          simp only [np_interp]
          rw [if_neg (not_lt.mpr (le_of_lt hx0q)), if_neg (not_le.mpr hx1q)]
          exact ih htl q (List.mem_cons_of_mem _ hq'')

/-- **C4**: for a curve period whose points have strictly increasing `x`,
every record of the slice whose timestamp falls within the period comes out
with its flags cleared to empty and its value equal to the piecewise-linear
interpolation of the input value over the period's points: a missing input
stays missing, an input below the minimum `x` or above the maximum `x` maps to
missing, an input exactly at a knot maps exactly to the knot's `y`, and on the
example curve `{(0, 0.0), (10, 100.0)}` input `5` maps to `50.0` while input
`-1` maps to missing. -/
theorem curve_period_interpolates (p : CurvePeriod) (data : List TimeRecord)
    (i : ℕ) (r : TimeRecord) (h : data[i]? = some r)
    (hin : p.start_date ≤ r.ts ∧ r.ts ≤ p.end_date)
    (hsort : p.points.Pairwise (fun a b => a.1 < b.1)) :
    ∃ r', (curve_period_apply p data)[i]? = some r' ∧
      r'.ts = r.ts ∧
      r'.flags = "" ∧
      r'.value = r.value.bind (fun v => np_interp v p.points) ∧
      (r.value = none → r'.value = none) ∧
      (∀ q ∈ p.points, np_interp q.1 p.points = some q.2) ∧
      (∀ v, r.value = some v → (∀ q ∈ p.points, v < q.1) →
        r'.value = none) ∧
      (∀ v, r.value = some v → p.points ≠ [] → (∀ q ∈ p.points, q.1 < v) →
        r'.value = none) ∧
      np_interp 5 [(0, 0), (10, 100)] = some 50 ∧
      np_interp (-1) [(0, 0), (10, 100)] = none := by
  refine ⟨⟨r.ts, r.value.bind (fun v => np_interp v p.points), ""⟩,
    ?_, rfl, rfl, rfl, ?_, ?_, ?_, ?_, ?_, ?_⟩
  · show (data.map _)[i]? = _
    rw [List.getElem?_map, h, Option.map_some']
    rw [if_pos hin]
  · intro hv
    simp [hv]
  · exact np_interp_knot p.points hsort
  · intro v hv hbelow
    simp only [hv, Option.bind_some]
    exact np_interp_below v p.points hbelow
  · intro v hv hne habove
    simp only [hv, Option.bind_some]
    exact np_interp_above v p.points hne habove
  · norm_num [np_interp]
  · norm_num [np_interp]

/-- Witness for `curve_period_interpolates`: period `[0, 10]` with curve
points `{(0, 0), (10, 100)}` applied to a single record, timestamp `5`,
value `5`, carrying a stale `RANGE` flag. -/
theorem curve_period_interpolates_witness :
    ∃ r', (curve_period_apply ⟨0, 10, [(0, 0), (10, 100)]⟩
        [⟨5, some 5, "RANGE"⟩])[0]? = some r' ∧
      r'.ts = (5 : ℤ) ∧
      r'.flags = "" ∧
      r'.value = (some (5 : ℚ)).bind
        (fun v => np_interp v [(0, 0), (10, 100)]) ∧
      ((some (5 : ℚ) : Option ℚ) = none → r'.value = none) ∧
      (∀ q ∈ [((0 : ℚ), (0 : ℚ)), (10, 100)],
        np_interp q.1 [(0, 0), (10, 100)] = some q.2) ∧
      (∀ v, (some (5 : ℚ) : Option ℚ) = some v →
        (∀ q ∈ [((0 : ℚ), (0 : ℚ)), (10, 100)], v < q.1) →
        r'.value = none) ∧
      (∀ v, (some (5 : ℚ) : Option ℚ) = some v →
        ([((0 : ℚ), (0 : ℚ)), (10, 100)] : List (ℚ × ℚ)) ≠ [] →
        (∀ q ∈ [((0 : ℚ), (0 : ℚ)), (10, 100)], q.1 < v) →
        r'.value = none) ∧
      np_interp 5 [(0, 0), (10, 100)] = some 50 ∧
      np_interp (-1) [(0, 0), (10, 100)] = none :=
  curve_period_interpolates ⟨0, 10, [(0, 0), (10, 100)]⟩
    [⟨5, some 5, "RANGE"⟩] 0 ⟨5, some 5, "RANGE"⟩ rfl
    (by constructor <;> norm_num) (by norm_num)

/-- **C1** (counterexample): the code's `min_count` uses a truncating
(floor) division, not the ceiling of the claim. With a 10-minute source step,
a 15-minute target step and `max_missing = 0`, the code computes
`min_count = 1` while the claim's formula gives `2`, and a window holding a
single non-missing value produces a value. Moreover, with `max_missing = 0`
a window holding exactly `min_count` non-missing values is complete, so its
value carries no `MISS` flag, contrary to the claim. -/
theorem aggregation_min_count_counterexample :
    aggregation_min_count 10 15 0 = 1 ∧
    spec_ceil_min_count 10 15 0 = 2 ∧
    (aggregate_window .mean (aggregation_min_count 10 15 0).toNat
      ((15 : ℕ) / 10) [some 5]).1 = some 5 ∧
    aggregation_min_count 10 60 0 = 6 ∧
    (aggregate_window .mean (aggregation_min_count 10 60 0).toNat
      ((60 : ℕ) / 10) (List.replicate 6 (some 1))).2 = "" := by
  refine ⟨by decide, by decide, ?_, by decide, by decide⟩
  show some (reduce_values .mean [(5 : ℚ)]) = some 5
  norm_num [reduce_values]

/-- **C1** (amended): for every aggregation run,
`min_count = max(1, floor(target_step / source_step) - max_missing)` with a
truncating division; a window containing exactly `min_count` non-missing
values produces a value, flagged `MISS` exactly when `min_count` falls short
of the window's full capacity `target_step / source_step`; and a window
containing `min_count - 1` non-missing values produces a missing result. -/
theorem aggregation_min_count_spec (source_step target_step max_missing : ℕ)
    (method : AggMethod) (vals vals' : List (Option ℚ))
    (hn : count_present vals
      = (aggregation_min_count source_step target_step max_missing).toNat)
    (hn' : count_present vals'
      = (aggregation_min_count source_step target_step max_missing).toNat
        - 1) :
    aggregation_min_count source_step target_step max_missing
      = max (((target_step / source_step : ℕ) : ℤ) - (max_missing : ℤ)) 1 ∧
    (aggregate_window method
      (aggregation_min_count source_step target_step max_missing).toNat
      (target_step / source_step) vals).1.isSome = true ∧
    (aggregate_window method
      (aggregation_min_count source_step target_step max_missing).toNat
      (target_step / source_step) vals).2
      = (if (aggregation_min_count source_step target_step max_missing).toNat
          < target_step / source_step then "MISS" else "") ∧
    (aggregate_window method
      (aggregation_min_count source_step target_step max_missing).toNat
      (target_step / source_step) vals').1 = none := by
  have h1 : (1 : ℤ) ≤ aggregation_min_count source_step target_step
      max_missing := le_max_right _ _
  have hmc : 1 ≤ (aggregation_min_count source_step target_step
      max_missing).toNat := by omega
  unfold count_present at hn hn'
  refine ⟨rfl, ?_, ?_, ?_⟩
  · simp only [aggregate_window]
    rw [if_neg (by omega)]
    rfl
  · simp only [aggregate_window]
    rw [if_neg (by omega), hn]
  · simp only [aggregate_window]
    rw [if_pos (by omega)]

/-- Witness for `aggregation_min_count_spec` at the spec's §8 example:
10-minute source, hourly target, `max_missing = 2`, so `min_count = 4`; a
window with 4 of its 6 values present yields a `MISS`-flagged value, and a
window with 3 present values yields a missing result. -/
theorem aggregation_min_count_spec_witness :
    aggregation_min_count 10 60 2
      = max ((((60 : ℕ) / 10 : ℕ) : ℤ) - ((2 : ℕ) : ℤ)) 1 ∧
    (aggregate_window .mean (aggregation_min_count 10 60 2).toNat
      ((60 : ℕ) / 10)
      [some 1, some 2, none, some 3, none, some 4]).1.isSome = true ∧
    (aggregate_window .mean (aggregation_min_count 10 60 2).toNat
      ((60 : ℕ) / 10)
      [some 1, some 2, none, some 3, none, some 4]).2
      = (if (aggregation_min_count 10 60 2).toNat < (60 : ℕ) / 10
          then "MISS" else "") ∧
    (aggregate_window .mean (aggregation_min_count 10 60 2).toNat
      ((60 : ℕ) / 10) [some 1, some 2, some 3]).1 = none :=
  aggregation_min_count_spec 10 60 2 .mean
    [some 1, some 2, none, some 3, none, some 4] [some 1, some 2, some 3]
    (by decide) (by decide)

/-- A run of characters all satisfying `p`, followed by a list whose head
does not start a `p`-run, is split back apart by `takeWhile`/`dropWhile`. -/
theorem takeWhile_all_append {p : Char → Bool} (ds rest : List Char)
    (hds : ∀ c ∈ ds, p c = true) (hrest : rest.takeWhile p = []) :
    (ds ++ rest).takeWhile p = ds ∧ (ds ++ rest).dropWhile p = rest := by
  induction ds with
  | nil =>
    refine ⟨hrest, ?_⟩
    cases rest with
    | nil => rfl
    | cons c cs =>
      rw [List.takeWhile_cons] at hrest
      by_cases hc : p c = true
      · rw [if_pos hc] at hrest
        simp at hrest
      · simp only [List.nil_append, List.dropWhile_cons]
        rw [if_neg hc]
  | cons d ds' ih =>
    have hd : p d = true := hds d (List.mem_cons_self _ _)
    have ih' := ih (fun c hc => hds c (List.mem_cons_of_mem _ hc))
    constructor
    · rw [List.cons_append, List.takeWhile_cons, if_pos hd, ih'.1]
    · rw [List.cons_append, List.dropWhile_cons, if_pos hd]
      exact ih'.2

/-- `takeWhile isDigit` finds nothing at the front of `"min"`. -/
theorem takeWhile_digit_min :
    ("min".data).takeWhile Char.isDigit = [] := rfl

/-- The regex check of the nonempty-offset validator accepts exactly the
strings of `code_offset_pattern`: an optional minus sign, a digit run that
may be empty only when the sign is absent, then `min`. -/
theorem check_nonempty_offset_false_iff (s : String) :
    check_nonempty_resulting_timestamp_offset_raises s = false ↔
      code_offset_pattern s := by
  obtain ⟨l⟩ := s
  cases l with
  | nil =>
    constructor
    · intro h
      exfalso
      simp [check_nonempty_resulting_timestamp_offset_raises,
        offset_regex_match] at h
    · rintro ⟨neg, ds, _, _, heq⟩
      exfalso
      have hlen := congrArg List.length heq
      cases neg <;> simp [List.length_append] at hlen
  | cons c t =>
    by_cases hc : c = '-'
    · subst hc
      have hm : check_nonempty_resulting_timestamp_offset_raises ⟨'-' :: t⟩
          = (!(t.dropWhile Char.isDigit == "min".data)
            || (true && (t.takeWhile Char.isDigit == []))) := rfl
      rw [hm]
      constructor
      · intro h
        simp only [Bool.true_and, Bool.or_eq_false_iff, Bool.not_eq_false',
          beq_iff_eq] at h
        obtain ⟨h1, h2⟩ := h
        refine ⟨true, t.takeWhile Char.isDigit,
          fun ch hch => List.mem_takeWhile_imp hch, ?_, ?_⟩
        · intro _
          intro hemp
          rw [hemp] at h2
          simp at h2
        · show '-' :: t = ['-'] ++ _ ++ _
          rw [List.singleton_append,
            show "min".data = ['m', 'i', 'n'] from rfl, ← h1,
            List.cons_append, List.takeWhile_append_dropWhile]
      · rintro ⟨neg, ds, hdig, hneg, heq⟩
        cases neg with
        | false =>
          exfalso
          simp only [if_neg Bool.false_ne_true, List.nil_append] at heq
          cases ds with
          | nil =>
            rw [List.nil_append] at heq
            injection heq with h1 _
            exact absurd h1 (by decide)
          | cons d ds' =>
            rw [List.cons_append] at heq
            injection heq with h1 _
            have := hdig d (List.mem_cons_self _ _)
            rw [← h1] at this
            exact absurd this (by decide)
        | true =>
          simp only [if_pos, List.singleton_append] at heq
          injection heq with _ h2
          have hsplit := takeWhile_all_append (p := Char.isDigit) ds
            ['m', 'i', 'n'] hdig rfl
          rw [h2]
          simp only [List.append_eq]
          rw [hsplit.1, hsplit.2]
          have hne : ds ≠ [] := hneg rfl
          simp [hne, show "min".data = ['m', 'i', 'n'] from rfl]
    · have hm : offset_regex_match ⟨c :: t⟩
          = (false, (c :: t).takeWhile Char.isDigit,
             (c :: t).dropWhile Char.isDigit) := by
        unfold offset_regex_match
        split
        · next t' heq =>
          injection heq with h1 _
          exact absurd h1 hc
        · rfl
      have hm2 : check_nonempty_resulting_timestamp_offset_raises ⟨c :: t⟩
          = !((c :: t).dropWhile Char.isDigit == "min".data) := by
        unfold check_nonempty_resulting_timestamp_offset_raises
        rw [hm]
        simp
      rw [hm2]
      constructor
      · intro h
        simp only [Bool.not_eq_false', beq_iff_eq] at h
        refine ⟨false, (c :: t).takeWhile Char.isDigit,
          fun ch hch => List.mem_takeWhile_imp hch,
          fun hcontra => absurd hcontra (by simp), ?_⟩
        simp only [if_neg Bool.false_ne_true, List.nil_append]
        rw [← h, List.takeWhile_append_dropWhile]
      · rintro ⟨neg, ds, hdig, _, heq⟩
        cases neg with
        | true =>
          exfalso
          simp only [if_pos, List.singleton_append] at heq
          injection heq with h1 _
          exact absurd h1 hc
        | false =>
          simp only [if_neg Bool.false_ne_true, List.nil_append] at heq
          have hsplit := takeWhile_all_append (p := Char.isDigit) ds
            "min".data hdig takeWhile_digit_min
          rw [heq, hsplit.2]
          simp

/-- **C8** (counterexample): the offset string `"min"` is non-empty and is
not an optionally negative *number* followed by the unit `min` (it has no
digits at all), yet saving accepts it without raising: the regex groups are
`sign = ""`, `number = ""`, `unit = "min"`, and the check only rejects a unit
other than `min` or a minus sign with no digits. -/
theorem resulting_timestamp_offset_check_counterexample :
    check_resulting_timestamp_offset_raises "min" = false ∧
    aggregation_save "min" = .ok () ∧
    "min" ≠ "" ∧
    ¬ spec_offset_pattern "min" := by
  refine ⟨rfl, rfl, by decide, ?_⟩
  rintro ⟨neg, ds, hne, _, heq⟩
  cases neg
  · simp only [Bool.false_eq_true, if_false, List.nil_append] at heq
    have hlen := congrArg List.length heq
    simp only [List.length_append] at hlen
    exact hne (List.length_eq_zero.mp (by omega))
  · rw [show "min".data = ['m', 'i', 'n'] from rfl] at heq
    simp only [if_pos, List.singleton_append, List.append_eq] at heq
    injection heq with h1 _
    exact absurd h1 (by decide)

/-- **C8** (amended): saving an aggregation raises the configuration error
(`IntegrityError`) exactly when the resulting timestamp offset is non-empty
and is not an optional minus sign followed by a digit run and the unit `min`,
where the digit run may be empty only if the minus sign is absent; the check
runs in `save`, and a valid or empty offset saves without error. -/
theorem aggregation_offset_check_spec (s : String) :
    aggregation_save s
        = .error "IntegrityError: not a valid resulting time step offset"
      ↔ (s ≠ "" ∧ ¬ code_offset_pattern s) := by
  unfold aggregation_save check_resulting_timestamp_offset_raises
  by_cases hs : s = ""
  · rw [if_pos hs]
    simp [hs]
  · rw [if_neg hs]
    by_cases hr : check_nonempty_resulting_timestamp_offset_raises s = true
    · rw [if_pos hr]
      constructor
      · intro _
        refine ⟨hs, fun hpat => ?_⟩
        rw [← check_nonempty_offset_false_iff s, hr] at hpat
        exact absurd hpat (by decide)
      · intro _
        rfl
    · have hr' : check_nonempty_resulting_timestamp_offset_raises s
          = false := by
        rwa [Bool.not_eq_true] at hr
      rw [hr']
      simp only [Bool.false_eq_true, if_false]
      constructor
      · intro h
        simp at h
      · rintro ⟨_, hpat⟩
        exact absurd ((check_nonempty_offset_false_iff s).mp hr') hpat

end EnhydrisAutoprocess
